import Mathlib

/-!
Verification development for the ENT Handover application (`App.py`).

The app keeps a mutable list of patient records plus an append-only audit
log.  We shallowly embed the record store: patient rows become a structure
with one `String` field per CSV column, the global dataframe `p_df`
together with the persisted CSV files becomes an explicit `AppState`, and
the mutating operations `upsert_patient` / `discharge_patient` become pure
state-passing functions.  `_now_iso()` and `uuid.uuid4()` are modelled as
explicit `now` / `newUid` parameters.
-/

namespace Handover

/-- One patient row, one field per entry of `PATIENT_COLUMNS` in `App.py`.
All cells of the CSV/sheet are strings. -/
structure PatientRecord where
  uid : String
  patientName : String
  hospitalNumber : String
  nhsNumber : String
  dateOfBirth : String
  wardBed : String
  reasonForAdmission : String
  pmhPshDh : String
  progress : String
  jobs : String
  priority : String
  assignedTo : String
  status : String
  lastUpdated : String
deriving Repr, DecidableEq

/-- One audit row, one field per entry of `AUDIT_COLUMNS` in `App.py`. -/
structure AuditEvent where
  timestamp : String
  userRole : String
  userInitials : String
  action : String
  uid : String
  patientName : String
  details : String
deriving Repr, DecidableEq

/-- A Python dict of column name to cell value, as passed to
`upsert_patient` and as read back row-wise by `_load_csv`. -/
abbrev RawRecord := List (String × String)

/-- `rec.get(key)` collapsed with the app's "missing or falsy means empty"
convention: a missing key and an empty string are both read as `""`. -/
def getField (record : RawRecord) (key : String) : String :=
  (record.lookup key).getD ""

/-- Row-wise content of `_load_csv` (App.py lines 161-172): every column
absent from the stored data is filled with the empty string (`df[c] = ""`),
for all fourteen columns alike. -/
def load_csv_record (raw : RawRecord) : PatientRecord :=
  { uid := getField raw "uid"
    patientName := getField raw "Patient Name"
    hospitalNumber := getField raw "Hospital Number"
    nhsNumber := getField raw "NHS Number"
    dateOfBirth := getField raw "Date of Birth"
    wardBed := getField raw "Ward/Bed"
    reasonForAdmission := getField raw "Reason for Admission"
    pmhPshDh := getField raw "PMH/PSH/DH"
    progress := getField raw "Progress"
    jobs := getField raw "Jobs"
    priority := getField raw "Priority"
    assignedTo := getField raw "Assigned To"
    status := getField raw "Status"
    lastUpdated := getField raw "Last Updated" }

/-- The in-memory dataframe `p_df`, the persisted patients file written by
`_write_patients`, and the audit file appended to by `_append_audit`. -/
structure AppState where
  records : List PatientRecord
  persisted : List PatientRecord
  audit : List AuditEvent
deriving Repr, DecidableEq

/-- Lines 251-257 of `upsert_patient`: copy the dict, assign `newUid` when
the caller's uid is missing or empty, force `Last Updated` to `now`
(discarding any caller-supplied value), and fill every missing column with
the empty string. -/
def normalizeRecord (record : RawRecord) (newUid now : String) : PatientRecord :=
  { uid := if getField record "uid" = "" then newUid else getField record "uid"
    patientName := getField record "Patient Name"
    hospitalNumber := getField record "Hospital Number"
    nhsNumber := getField record "NHS Number"
    dateOfBirth := getField record "Date of Birth"
    wardBed := getField record "Ward/Bed"
    reasonForAdmission := getField record "Reason for Admission"
    pmhPshDh := getField record "PMH/PSH/DH"
    progress := getField record "Progress"
    jobs := getField record "Jobs"
    priority := getField record "Priority"
    assignedTo := getField record "Assigned To"
    status := getField record "Status"
    lastUpdated := now }

/-- `p_df.loc[idx, PATIENT_COLUMNS] = [...]` at the first index whose uid
matches: overwrite every column of the first matching row in place. -/
def replaceFirst (l : List PatientRecord) (r : PatientRecord) : List PatientRecord :=
  match l with
  | [] => []
  | p :: rest => if p.uid = r.uid then r :: rest else p :: replaceFirst rest r

/-- `upsert_patient` (App.py lines 249-278).  Dispatches on membership of
the resolved uid in `p_df["uid"].values`, rewrites the full record set
(`_write_patients`), appends one audit row (`_append_audit`) and returns
the resolved uid.  The two `_now_iso()` calls inside the function are
modelled by the single parameter `now`. -/
def upsert_patient (s : AppState) (record : RawRecord)
    (newUid now editorRole editorInitials : String) : String × AppState :=
  let r := normalizeRecord record newUid now
  let found := s.records.any fun p => p.uid == r.uid
  let records := if found then replaceFirst s.records r else s.records ++ [r]
  let action := if found then "update" else "create"
  let ev : AuditEvent :=
    { timestamp := now, userRole := editorRole, userInitials := editorInitials,
      action := action, uid := r.uid, patientName := r.patientName,
      details := action ++ " by " ++ editorInitials }
  (r.uid, { records := records, persisted := records, audit := s.audit ++ [ev] })

/-- The two `p_df.loc[idx, ...]` assignments of `discharge_patient`: set
`Status` and `Last Updated` on the first row whose uid matches, leave every
other cell and row alone. -/
def dischargeFirst (l : List PatientRecord) (uid now : String) : List PatientRecord :=
  match l with
  | [] => []
  | p :: rest =>
      if p.uid = uid then { p with status := "Discharged", lastUpdated := now } :: rest
      else p :: dischargeFirst rest uid now

/-- `discharge_patient` (App.py lines 281-298).  Returns `false` and leaves
all state untouched when the uid is absent; otherwise updates the first
matching row, rewrites the full record set and appends one audit row.
`p_df.loc[idx, "Patient Name"]` is read after the two cell assignments,
which do not touch the name, so it equals the matching row's name. -/
def discharge_patient (s : AppState) (uid now editorRole editorInitials : String) :
    Bool × AppState :=
  match s.records.find? (fun p => p.uid == uid) with
  | none => (false, s)
  | some p =>
      let records := dischargeFirst s.records uid now
      let ev : AuditEvent :=
        { timestamp := now, userRole := editorRole, userInitials := editorInitials,
          action := "discharge", uid := uid, patientName := p.patientName,
          details := "discharged by " ++ editorInitials }
      (true, { records := records, persisted := records, audit := s.audit ++ [ev] })

/-- A single mutating call against the store, with the environment-supplied
values (`uuid4`, `_now_iso`, sidebar role/initials) made explicit. -/
inductive Op where
  | upsertOp (record : RawRecord) (newUid now editorRole editorInitials : String)
  | dischargeOp (uid now editorRole editorInitials : String)

/-- State transition of one operation. -/
def step (s : AppState) : Op → AppState
  | Op.upsertOp record newUid now r i => (upsert_patient s record newUid now r i).2
  | Op.dischargeOp uid now r i => (discharge_patient s uid now r i).2

/-- Whether the call reports success: `upsert_patient` always returns a
uid; `discharge_patient` returns `True` exactly when the uid is present. -/
def opOk (s : AppState) : Op → Bool
  | Op.upsertOp _ _ _ _ _ => true
  | Op.dischargeOp uid _ _ _ => s.records.any fun p => p.uid == uid

/-- Run a sequence of operations left to right. -/
def runOps (s : AppState) : List Op → AppState
  | [] => s
  | op :: rest => runOps (step s op) rest

/-- Python's `s.strip()`: remove leading and trailing whitespace
characters (space, tab, carriage return, newline, and the like). -/
def pyStrip (s : String) : String :=
  ⟨((s.data.dropWhile Char.isWhitespace).reverse.dropWhile Char.isWhitespace).reverse⟩

/-- Python's `s[n:]` on a text cell: drop the first `n` characters. -/
def pyDrop (s : String) (n : Nat) : String :=
  ⟨s.data.drop n⟩

/-- Outcome reported by the edit form's submit branch. -/
inductive SubmitOutcome where
  | validationError
  | saved (uid : String)
deriving Repr, DecidableEq

/-- The `new_rec` dict built by the edit form (App.py lines 440-455). -/
def edit_form_record (recUid name hosp nhs dob ward reason pmh progressTxt jobsTxt
    priority assigned status now : String) : RawRecord :=
  [("uid", recUid), ("Patient Name", pyStrip name), ("Hospital Number", pyStrip hosp),
   ("NHS Number", pyStrip nhs), ("Date of Birth", pyStrip dob), ("Ward/Bed", pyStrip ward),
   ("Reason for Admission", pyStrip reason), ("PMH/PSH/DH", pyStrip pmh),
   ("Progress", pyStrip progressTxt), ("Jobs", pyStrip jobsTxt), ("Priority", priority),
   ("Assigned To", pyStrip assigned), ("Status", status), ("Last Updated", now)]

/-- The submit branch of the edit form (App.py lines 436-457): reject with
an error and no store call when the stripped name is empty (`if not
name.strip()`), otherwise build `new_rec` and call `upsert_patient`. -/
def edit_form_submit (s : AppState) (recUid name hosp nhs dob ward reason pmh
    progressTxt jobsTxt priority assigned status : String)
    (newUid now editorRole editorInitials : String) : SubmitOutcome × AppState :=
  if pyStrip name = "" then (SubmitOutcome.validationError, s)
  else
    let out := upsert_patient s
      (edit_form_record recUid name hosp nhs dob ward reason pmh progressTxt jobsTxt
        priority assigned status now)
      newUid now editorRole editorInitials
    (SubmitOutcome.saved out.1, out.2)

/-- Python's `line.startswith(marker)`: the first `len(marker)` characters
equal the marker. -/
def startswith (s marker : String) : Bool :=
  s.data.take marker.data.length == marker.data

/-- Chunks of a character stream cut at every newline, accumulator held in
reverse. -/
def splitLinesAux : List Char → List Char → List String
  | [], acc => [⟨acc.reverse⟩]
  | c :: rest, acc =>
      if c = '\n' then (⟨acc.reverse⟩ : String) :: splitLinesAux rest []
      else splitLinesAux rest (c :: acc)

/-- Python's `s.splitlines()` for newline-terminated text: every newline
ends a line, and a final chunk is a line only when non-empty (so `""`
yields no lines and `"a\n"` yields just `["a"]`). -/
def pySplitLines (s : String) : List String :=
  let parts := splitLinesAux s.data []
  if parts.getLast? = some "" then parts.dropLast else parts

/-- `parse_jobs`'s loop body over the already-split lines (App.py lines
470-478): strip the line, classify by the done markers first (taking
`- [x]` / `- [X]`), then the open marker `- [ ]`, and silently skip
anything else; an item keeps the text after the 5-character marker,
stripped. -/
def parse_lines : List String → List (String × Bool)
  | [] => []
  | line :: rest =>
      if startswith (pyStrip line) "- [x]" || startswith (pyStrip line) "- [X]" then
        (pyStrip (pyDrop (pyStrip line) 5), true) :: parse_lines rest
      else if startswith (pyStrip line) "- [ ]" then
        (pyStrip (pyDrop (pyStrip line) 5), false) :: parse_lines rest
      else parse_lines rest

/-- `parse_jobs(jtxt)` (App.py lines 470-478): `(jtxt or "").splitlines()`
fed through the classifying loop. -/
def parse_jobs (jtxt : String) : List (String × Bool) :=
  parse_lines (pySplitLines jtxt)

/-- The pending-jobs view for one `Jobs` text (App.py lines 480-491): one
row (its `Task` cell) per parsed item whose done flag is false. -/
def pendingTasks (jtxt : String) : List String :=
  ((parse_jobs jtxt).filter fun td => !td.2).map Prod.fst

/-- `priority_rank.get(str(x), 99)` (App.py line 366-367). -/
def priority_rank (p : String) : Nat :=
  if p = "High" then 0 else if p = "Medium" then 1 else if p = "Low" then 2 else 99

/-- Comparator realising `sort_values(["_prio", "Last Updated"],
ascending=[True, False])` on index-tagged rows.  pandas sorts several keys
with `numpy.lexsort`, a stable sort, and a stable sort by a key equals a
sort by that key with the original position as the final tiebreak, which is
the last branch here. -/
def view_le (a b : Nat × PatientRecord) : Bool :=
  if priority_rank a.2.priority < priority_rank b.2.priority then true
  else if priority_rank b.2.priority < priority_rank a.2.priority then false
  else if b.2.lastUpdated < a.2.lastUpdated then true
  else if a.2.lastUpdated < b.2.lastUpdated then false
  else decide (a.1 ≤ b.1)

/-- The board sort on position-tagged rows. -/
def sortViewTagged (l : List PatientRecord) : List (Nat × PatientRecord) :=
  l.enum.mergeSort view_le

/-- The sorted `view_df` (App.py lines 365-368), positions dropped. -/
def sortView (l : List PatientRecord) : List PatientRecord :=
  (sortViewTagged l).map Prod.snd

/-- Build an audit row from its seven cells, in `AUDIT_COLUMNS` order. -/
def mkAudit (timestamp userRole userInitials action uid patientName details : String) :
    AuditEvent :=
  { timestamp := timestamp, userRole := userRole, userInitials := userInitials,
    action := action, uid := uid, patientName := patientName, details := details }

/-- The timestamp used by the concrete witnesses. -/
def exNow : String := "2026-02-02T00:00:00"

/-- A concrete stored row used to instantiate the theorems. -/
def exRecord : PatientRecord :=
  { uid := "u1", patientName := "Alice", hospitalNumber := "H1", nhsNumber := "N1",
    dateOfBirth := "01/01/1970", wardBed := "W1", reasonForAdmission := "tonsillitis",
    pmhPshDh := "", progress := "", jobs := "- [ ] book CT", priority := "High",
    assignedTo := "AB", status := "Active", lastUpdated := "2026-01-01T00:00:00" }

/-- A concrete store holding `exRecord` and an empty audit log. -/
def exState : AppState :=
  { records := [exRecord], persisted := [exRecord], audit := [] }

/-- `find?` hits the first element satisfying the predicate. -/
theorem find_first {α : Type} (pred : α → Bool) :
    ∀ (l1 : List α) (p : α) (l2 : List α),
      (∀ q ∈ l1, pred q = false) → pred p = true →
      (l1 ++ p :: l2).find? pred = some p
  | [], p, l2, _, hp => by simpa using List.find?_cons_of_pos l2 hp
  | q :: rest, p, l2, h1, hp => by
      have hq : pred q = false := h1 q (List.mem_cons_self q rest)
      rw [List.cons_append, List.find?_cons_of_neg _ (by simp [hq])]
      exact find_first pred rest p l2 (fun x hx => h1 x (List.mem_cons_of_mem q hx)) hp

/-- `dischargeFirst` rewrites exactly the first matching row. -/
theorem dischargeFirst_eq (uid now : String) :
    ∀ (l1 : List PatientRecord) (p : PatientRecord) (l2 : List PatientRecord),
      (∀ q ∈ l1, q.uid ≠ uid) → p.uid = uid →
      dischargeFirst (l1 ++ p :: l2) uid now
        = l1 ++ ({ p with status := "Discharged", lastUpdated := now } : PatientRecord) :: l2
  | [], p, l2, _, hp => by simp [dischargeFirst, hp]
  | q :: rest, p, l2, h1, hp => by
      have hq : q.uid ≠ uid := h1 q (List.mem_cons_self q rest)
      simp only [List.cons_append, dischargeFirst, if_neg hq, List.cons.injEq, true_and]
      exact dischargeFirst_eq uid now rest p l2
        (fun x hx => h1 x (List.mem_cons_of_mem q hx)) hp

/-- `replaceFirst` rewrites exactly the first matching row. -/
theorem replaceFirst_eq (r : PatientRecord) :
    ∀ (l1 : List PatientRecord) (p : PatientRecord) (l2 : List PatientRecord),
      (∀ q ∈ l1, q.uid ≠ r.uid) → p.uid = r.uid →
      replaceFirst (l1 ++ p :: l2) r = l1 ++ r :: l2
  | [], p, l2, _, hp => by simp [replaceFirst, hp]
  | q :: rest, p, l2, h1, hp => by
      have hq : q.uid ≠ r.uid := h1 q (List.mem_cons_self q rest)
      simp only [List.cons_append, replaceFirst, if_neg hq, List.cons.injEq, true_and]
      exact replaceFirst_eq r rest p l2 (fun x hx => h1 x (List.mem_cons_of_mem q hx)) hp

/-- Replacing a row in place keeps the row count. -/
theorem replaceFirst_length (r : PatientRecord) :
    ∀ l : List PatientRecord, (replaceFirst l r).length = l.length
  | [] => rfl
  | p :: rest => by
      by_cases h : p.uid = r.uid
      · simp [replaceFirst, h]
      · simp [replaceFirst, h, replaceFirst_length r rest]

/-- Replacing a row in place keeps the uid column unchanged. -/
theorem replaceFirst_map_uid (r : PatientRecord) :
    ∀ l : List PatientRecord,
      (replaceFirst l r).map PatientRecord.uid = l.map PatientRecord.uid
  | [] => rfl
  | p :: rest => by
      by_cases h : p.uid = r.uid
      · simp [replaceFirst, h]
      · simp [replaceFirst, h, replaceFirst_map_uid r rest]

/-- Discharging a row keeps the uid column unchanged. -/
theorem dischargeFirst_map_uid (uid now : String) :
    ∀ l : List PatientRecord,
      (dischargeFirst l uid now).map PatientRecord.uid = l.map PatientRecord.uid
  | [] => rfl
  | p :: rest => by
      by_cases h : p.uid = uid
      · simp [dischargeFirst, h]
      · simp [dischargeFirst, h, dischargeFirst_map_uid uid now rest]

/-- C6: on a uid absent from the store, `discharge_patient` returns the
not-found indication `false`, appends no audit event and leaves the record
set (and the persisted copy) completely unchanged. -/
theorem C6_discharge_unknown (s : AppState) (uid now editorRole editorInitials : String)
    (h : ∀ p ∈ s.records, p.uid ≠ uid) :
    discharge_patient s uid now editorRole editorInitials = (false, s) := by
  have hf : s.records.find? (fun p => p.uid == uid) = none := by
    apply List.find?_eq_none.mpr
    intro p hp
    simpa using h p hp
  simp [discharge_patient, hf]

/-- Witness for C6 at a concrete store and unknown uid. -/
theorem C6_witness :
    discharge_patient exState "zz" "2026-02-02T00:00:00" "Doctor" "AB" = (false, exState) :=
  C6_discharge_unknown exState "zz" "2026-02-02T00:00:00" "Doctor" "AB" (by decide)

/-- C7: on a present uid, `discharge_patient` sets only `Status` and
`Last Updated` of the matching row, leaves every other field and row
untouched, persists the full record set, and appends exactly one audit
event with action `discharge`. -/
theorem C7_discharge_frame (s : AppState) (uid now editorRole editorInitials : String)
    (l1 l2 : List PatientRecord) (p : PatientRecord)
    (hs : s.records = l1 ++ p :: l2) (hp : p.uid = uid) (hl1 : ∀ q ∈ l1, q.uid ≠ uid) :
    discharge_patient s uid now editorRole editorInitials =
      (true,
        { records := l1 ++ ({ p with status := "Discharged", lastUpdated := now } : PatientRecord) :: l2,
          persisted := l1 ++ ({ p with status := "Discharged", lastUpdated := now } : PatientRecord) :: l2,
          audit := s.audit ++ [mkAudit now editorRole editorInitials "discharge" uid
            p.patientName ("discharged by " ++ editorInitials)] }) := by
  have hf : s.records.find? (fun q => q.uid == uid) = some p := by
    rw [hs]
    apply find_first
    · intro q hq
      simpa using hl1 q hq
    · simpa using hp
  unfold discharge_patient
  rw [hf]
  simp [hs, dischargeFirst_eq uid now l1 p l2 hl1 hp, mkAudit]

/-- Witness for C7 at a concrete store with the matching uid. -/
theorem C7_witness :
    discharge_patient exState "u1" exNow "Doctor" "AB"
      = (true,
          { records := [{ exRecord with status := "Discharged", lastUpdated := exNow }],
            persisted := [{ exRecord with status := "Discharged", lastUpdated := exNow }],
            audit := [mkAudit exNow "Doctor" "AB" "discharge" "u1" "Alice"
              "discharged by AB"] }) :=
  (C7_discharge_frame exState "u1" exNow "Doctor" "AB" [] []
    exRecord rfl rfl (by decide)).trans (by decide)

/-- C10: an upsert whose record carries a non-empty uid that matches no
stored record creates a new row preserving that uid, appends it at the end
of the record set, and logs the audit event with action `create`. -/
theorem C10_upsert_new_uid (s : AppState) (record : RawRecord)
    (newUid now editorRole editorInitials : String) (u : String)
    (hu : getField record "uid" = u) (hne : u ≠ "")
    (habsent : ∀ p ∈ s.records, p.uid ≠ u) :
    upsert_patient s record newUid now editorRole editorInitials =
      (u,
        { records := s.records ++ [normalizeRecord record newUid now],
          persisted := s.records ++ [normalizeRecord record newUid now],
          audit := s.audit ++ [mkAudit now editorRole editorInitials "create" u
            (getField record "Patient Name") ("create by " ++ editorInitials)] }) := by
  have hru : (normalizeRecord record newUid now).uid = u := by
    simp [normalizeRecord, hu, hne]
  have hany : (s.records.any fun p => p.uid == (normalizeRecord record newUid now).uid)
      = false := by
    rw [hru]
    simp only [List.any_eq_false, beq_iff_eq]
    exact habsent
  have hpn : (normalizeRecord record newUid now).patientName
      = getField record "Patient Name" := rfl
  have hnex : ¬ ∃ x ∈ s.records, x.uid = u := by
    rintro ⟨x, hx, hxu⟩
    exact habsent x hx hxu
  simp [upsert_patient, hany, hru, hpn, mkAudit]
  refine ⟨fun x hx hxu => absurd hxu (habsent x hx), habsent, ?_⟩
  rw [if_neg hnex]
  rfl

/-- Witness for C10 at a concrete store and fresh caller-supplied uid. -/
theorem C10_witness :
    upsert_patient exState [("uid", "u2"), ("Patient Name", "Bob")] "ignored"
        exNow "Nurse" "CD"
      = ("u2",
          { records := exState.records
              ++ [normalizeRecord [("uid", "u2"), ("Patient Name", "Bob")] "ignored" exNow],
            persisted := exState.records
              ++ [normalizeRecord [("uid", "u2"), ("Patient Name", "Bob")] "ignored" exNow],
            audit := exState.audit
              ++ [mkAudit exNow "Nurse" "CD" "create" "u2" "Bob" "create by CD"] }) :=
  (C10_upsert_new_uid exState [("uid", "u2"), ("Patient Name", "Bob")] "ignored"
    exNow "Nurse" "CD" "u2" (by decide) (by decide) (by decide)).trans (by decide)

/-- C1: `upsert_patient` resolves the uid (fresh `newUid` when the caller's
uid is empty, the caller's uid otherwise), always stamps `Last Updated`
with `now` discarding any caller-supplied value, appends a new row when the
uid was empty and fresh, overwrites the matching row in place keeping the
row count when the uid matches an existing record, and returns the resolved
uid. -/
theorem C1_upsert_dispatch (s : AppState) (record : RawRecord)
    (newUid now editorRole editorInitials : String) :
    (upsert_patient s record newUid now editorRole editorInitials).1
        = (normalizeRecord record newUid now).uid
    ∧ (normalizeRecord record newUid now).lastUpdated = now
    ∧ (getField record "uid" = "" → (normalizeRecord record newUid now).uid = newUid)
    ∧ (getField record "uid" ≠ "" →
        (normalizeRecord record newUid now).uid = getField record "uid")
    ∧ (getField record "uid" = "" → (∀ p ∈ s.records, p.uid ≠ newUid) →
        (upsert_patient s record newUid now editorRole editorInitials).2.records
          = s.records ++ [normalizeRecord record newUid now])
    ∧ ((∃ p ∈ s.records, p.uid = (normalizeRecord record newUid now).uid) →
        (upsert_patient s record newUid now editorRole editorInitials).2.records
            = replaceFirst s.records (normalizeRecord record newUid now)
          ∧ (upsert_patient s record newUid now editorRole editorInitials).2.records.length
              = s.records.length) := by
  refine ⟨rfl, rfl, ?_, ?_, ?_, ?_⟩
  · intro h
    simp [normalizeRecord, h]
  · intro h
    simp [normalizeRecord, h]
  · intro h hfresh
    have hru : (normalizeRecord record newUid now).uid = newUid := by
      simp [normalizeRecord, h]
    have hany : (s.records.any fun p => p.uid == (normalizeRecord record newUid now).uid)
        = false := by
      rw [hru]
      simp only [List.any_eq_false, beq_iff_eq]
      exact hfresh
    simp [upsert_patient, hany]
  · intro hmem
    have hany : (s.records.any fun p => p.uid == (normalizeRecord record newUid now).uid)
        = true := by
      simp only [List.any_eq_true, beq_iff_eq]
      exact hmem
    constructor
    · simp [upsert_patient, hany]
    · simp [upsert_patient, hany, replaceFirst_length]

/-- Witness for C1 at a concrete store: an empty-uid record is created with
the fresh uid and appended, and `Last Updated` is stamped with `now`. -/
theorem C1_witness :
    (upsert_patient exState [("Patient Name", "Bob"), ("Last Updated", "1999")]
        "u9" "2026-02-02T00:00:00" "Doctor" "AB").1 = "u9"
    ∧ (upsert_patient exState [("Patient Name", "Bob"), ("Last Updated", "1999")]
        "u9" "2026-02-02T00:00:00" "Doctor" "AB").2.records
        = exState.records
          ++ [normalizeRecord [("Patient Name", "Bob"), ("Last Updated", "1999")]
                "u9" "2026-02-02T00:00:00"]
    ∧ (normalizeRecord [("Patient Name", "Bob"), ("Last Updated", "1999")]
        "u9" "2026-02-02T00:00:00").lastUpdated = "2026-02-02T00:00:00" := by
  have h := C1_upsert_dispatch exState [("Patient Name", "Bob"), ("Last Updated", "1999")]
    "u9" "2026-02-02T00:00:00" "Doctor" "AB"
  refine ⟨?_, h.2.2.2.2.1 (by decide) (by decide), h.2.1⟩
  rw [h.1]
  exact h.2.2.1 (by decide)

/-- One operation appends `1` audit row on success and `0` on failure, and
never touches the existing rows. -/
theorem step_audit_spec (s : AppState) (op : Op) :
    (step s op).audit.length = s.audit.length + cond (opOk s op) 1 0
    ∧ s.audit <+: (step s op).audit := by
  cases op with
  | upsertOp record newUid now r i =>
      constructor
      · simp [step, upsert_patient, opOk]
      · exact ⟨_, rfl⟩
  | dischargeOp uid now r i =>
      by_cases h : (s.records.any fun p => p.uid == uid) = true
      · have hsome : (s.records.find? fun p => p.uid == uid).isSome = true := by
          rw [List.find?_isSome]
          simpa using h
        cases hfind : s.records.find? (fun p => p.uid == uid) with
        | none => rw [hfind] at hsome; simp at hsome
        | some p =>
            have haud : (step s (Op.dischargeOp uid now r i)).audit
                = s.audit ++ [mkAudit now r i "discharge" uid p.patientName
                    ("discharged by " ++ i)] := by
              simp [step, discharge_patient, hfind, mkAudit]
            constructor
            · rw [haud]
              simp [opOk, h]
            · exact ⟨_, haud.symm⟩
      · have hfalse : (s.records.any fun p => p.uid == uid) = false :=
          Bool.eq_false_iff.mpr h
        have hnone : (s.records.find? fun p => p.uid == uid) = none := by
          apply List.find?_eq_none.mpr
          intro q hq
          have := List.any_eq_false.mp hfalse q hq
          simpa using this
        constructor
        · simp [step, discharge_patient, hnone, opOk, hfalse]
        · refine ⟨[], ?_⟩
          simp [step, discharge_patient, hnone]

/-- Over any operation sequence the initial audit log stays an unchanged
initial segment of the final one. -/
theorem runOps_audit (s : AppState) (ops : List Op) :
    s.audit <+: (runOps s ops).audit := by
  induction ops generalizing s with
  | nil => exact ⟨[], by simp [runOps]⟩
  | cons op rest ih => exact (step_audit_spec s op).2.trans (ih (step s op))

/-- C3: every successful `upsert_patient`/`discharge_patient` call grows
the audit log by exactly one row, a failed call leaves it unchanged, and
after any sequence of operations the original log is still an unchanged
initial segment (append-only: nothing rewritten, removed or reordered), so
the log never shrinks. -/
theorem C3_audit_append_only (s : AppState) (ops : List Op) :
    (∀ op : Op, opOk s op = true → (step s op).audit.length = s.audit.length + 1)
    ∧ (∀ op : Op, opOk s op = false → (step s op).audit.length = s.audit.length)
    ∧ (∀ op : Op, s.audit <+: (step s op).audit)
    ∧ s.audit <+: (runOps s ops).audit
    ∧ s.audit.length ≤ (runOps s ops).audit.length := by
  refine ⟨?_, ?_, fun op => (step_audit_spec s op).2, runOps_audit s ops, ?_⟩
  · intro op hok
    have h := (step_audit_spec s op).1
    rwa [hok] at h
  · intro op hok
    have h := (step_audit_spec s op).1
    rwa [hok] at h
  · obtain ⟨t, ht⟩ := runOps_audit s ops
    rw [← ht]
    simp

/-- Witness for C3: a successful discharge at a concrete store appends
exactly one audit row. -/
theorem C3_witness :
    opOk exState (Op.dischargeOp "u1" exNow "Doctor" "AB") = true
    ∧ (step exState (Op.dischargeOp "u1" exNow "Doctor" "AB")).audit.length
        = exState.audit.length + 1 := by
  have h := C3_audit_append_only exState []
  exact ⟨by decide, h.1 (Op.dischargeOp "u1" exNow "Doctor" "AB") (by decide)⟩

/-- In a uid-unique store, replacing the first match leaves exactly the
replacement as the one row carrying that uid. -/
theorem replaceFirst_filter_eq (r : PatientRecord) :
    ∀ l : List PatientRecord, (l.map PatientRecord.uid).Nodup →
      r.uid ∈ l.map PatientRecord.uid →
      (replaceFirst l r).filter (fun p => p.uid == r.uid) = [r]
  | [], _, hmem => by simp at hmem
  | p :: rest, hnd, hmem => by
      have hnd' : (rest.map PatientRecord.uid).Nodup := (List.nodup_cons.mp (by simpa using hnd)).2
      by_cases h : p.uid = r.uid
      · have hnotin : r.uid ∉ rest.map PatientRecord.uid := by
          rw [← h]
          exact (List.nodup_cons.mp (by simpa using hnd)).1
        have hfr : rest.filter (fun q => q.uid == r.uid) = [] := by
          apply List.filter_eq_nil_iff.mpr
          intro q hq hbeq
          exact hnotin (by
            rw [← (beq_iff_eq.mp hbeq)]
            exact List.mem_map_of_mem PatientRecord.uid hq)
        simp [replaceFirst, h, List.filter_cons, hfr]
      · have hmem' : r.uid ∈ rest.map PatientRecord.uid := by
          rcases by simpa using hmem with h1 | h1
          · exact absurd h1.symm h
          · simpa using h1
        have hfq : (p.uid == r.uid) = false := by
          simpa using h
        simp only [replaceFirst, if_neg h, List.filter_cons, hfq]
        exact replaceFirst_filter_eq r rest hnd' hmem'

/-- Every operation preserves uniqueness of uids in the store. -/
theorem step_nodup (t : AppState) (op : Op)
    (h : (t.records.map PatientRecord.uid).Nodup) :
    ((step t op).records.map PatientRecord.uid).Nodup := by
  cases op with
  | upsertOp record newUid now r i =>
      by_cases hf :
          (t.records.any fun p => p.uid == (normalizeRecord record newUid now).uid) = true
      · have hrec : (step t (Op.upsertOp record newUid now r i)).records
            = replaceFirst t.records (normalizeRecord record newUid now) := by
          simp [step, upsert_patient, hf]
        rw [hrec, replaceFirst_map_uid]
        exact h
      · have hfalse := Bool.eq_false_iff.mpr hf
        have hrec : (step t (Op.upsertOp record newUid now r i)).records
            = t.records ++ [normalizeRecord record newUid now] := by
          simp [step, upsert_patient, hfalse]
        have hnotin : (normalizeRecord record newUid now).uid
            ∉ t.records.map PatientRecord.uid := by
          intro hin
          obtain ⟨q, hq, hqe⟩ := List.mem_map.mp hin
          have := List.any_eq_false.mp hfalse q hq
          simp [hqe] at this
        rw [hrec]
        simp [List.nodup_append, h, hnotin]
  | dischargeOp uid now r i =>
      cases hfind : t.records.find? (fun p => p.uid == uid) with
      | none => simpa [step, discharge_patient, hfind] using h
      | some p =>
          have hrec : (step t (Op.dischargeOp uid now r i)).records
              = dischargeFirst t.records uid now := by
            simp [step, discharge_patient, hfind]
          rw [hrec, dischargeFirst_map_uid]
          exact h

/-- C8: upserting an existing uid leaves the store with exactly one record
carrying that uid, holding the new (normalized) field values, with the row
count unchanged; and every operation keeps uids unique in the store. -/
theorem C8_upsert_existing (s : AppState) (record : RawRecord)
    (newUid now editorRole editorInitials u : String)
    (hu : getField record "uid" = u) (hne : u ≠ "")
    (hmem : u ∈ s.records.map PatientRecord.uid)
    (hnodup : (s.records.map PatientRecord.uid).Nodup) :
    ((upsert_patient s record newUid now editorRole editorInitials).2.records.filter
        (fun p => p.uid == u)) = [normalizeRecord record newUid now]
    ∧ (upsert_patient s record newUid now editorRole editorInitials).2.records.length
        = s.records.length
    ∧ ∀ (t : AppState) (op : Op), (t.records.map PatientRecord.uid).Nodup →
        ((step t op).records.map PatientRecord.uid).Nodup := by
  have hru : (normalizeRecord record newUid now).uid = u := by
    simp [normalizeRecord, hu, hne]
  have hany : (s.records.any fun p => p.uid == (normalizeRecord record newUid now).uid)
      = true := by
    simp only [List.any_eq_true, beq_iff_eq, hru]
    obtain ⟨q, hq, hqe⟩ := List.mem_map.mp hmem
    exact ⟨q, hq, hqe⟩
  have hrec : (upsert_patient s record newUid now editorRole editorInitials).2.records
      = replaceFirst s.records (normalizeRecord record newUid now) := by
    simp [upsert_patient, hany]
  refine ⟨?_, ?_, step_nodup⟩
  · rw [hrec, ← hru]
    exact replaceFirst_filter_eq (normalizeRecord record newUid now) s.records hnodup
      (by rw [hru]; exact hmem)
  · rw [hrec]
    exact replaceFirst_length (normalizeRecord record newUid now) s.records

/-- Witness for C8: updating the stored record at a concrete store keeps
one row for the uid with the new values and the same row count. -/
theorem C8_witness :
    ((upsert_patient exState [("uid", "u1"), ("Patient Name", "Alice B")] "ignored" exNow
        "Doctor" "AB").2.records.filter (fun p => p.uid == "u1"))
      = [normalizeRecord [("uid", "u1"), ("Patient Name", "Alice B")] "ignored" exNow]
    ∧ (upsert_patient exState [("uid", "u1"), ("Patient Name", "Alice B")] "ignored" exNow
        "Doctor" "AB").2.records.length = exState.records.length := by
  have h := C8_upsert_existing exState [("uid", "u1"), ("Patient Name", "Alice B")]
    "ignored" exNow "Doctor" "AB" "u1" (by decide) (by decide) (by decide) (by decide)
  exact ⟨h.1, h.2.1⟩

/-- Counterexample to C2 as stated: the name `" "` is a non-empty string,
yet the submit path rejects it with a validation error and performs no
store or audit change, because the handler tests the stripped name
(`if not name.strip()`). -/
theorem C2_counterexample :
    (" " : String) ≠ ""
    ∧ edit_form_submit exState "" " " "" "" "" "" "" "" "" "" "Medium" "" "Active"
        "u9" exNow "Doctor" "AB" = (SubmitOutcome.validationError, exState) :=
  ⟨by decide, by decide⟩

/-- C2 amended: a submission whose stripped name is empty (so an empty or
whitespace-only name) fails with a validation error and no store or audit
effect; a submission whose stripped name is non-empty is accepted and
handed to `upsert_patient`, whatever the other fields hold. -/
theorem C2_name_validation (s : AppState)
    (recUid name hosp nhs dob ward reason pmh progressTxt jobsTxt priority assigned
      status newUid now editorRole editorInitials : String) :
    (pyStrip name = "" →
      edit_form_submit s recUid name hosp nhs dob ward reason pmh progressTxt jobsTxt
          priority assigned status newUid now editorRole editorInitials
        = (SubmitOutcome.validationError, s))
    ∧ (pyStrip name ≠ "" →
      edit_form_submit s recUid name hosp nhs dob ward reason pmh progressTxt jobsTxt
          priority assigned status newUid now editorRole editorInitials
        = (SubmitOutcome.saved
            (upsert_patient s (edit_form_record recUid name hosp nhs dob ward reason pmh
              progressTxt jobsTxt priority assigned status now) newUid now editorRole
              editorInitials).1,
           (upsert_patient s (edit_form_record recUid name hosp nhs dob ward reason pmh
              progressTxt jobsTxt priority assigned status now) newUid now editorRole
              editorInitials).2)) := by
  constructor
  · intro h
    simp [edit_form_submit, h]
  · intro h
    simp [edit_form_submit, h]

/-- Witness for the amended C2: a name that strips to something non-empty
is accepted and reaches the store. -/
theorem C2_witness :
    edit_form_submit exState "" "Bob " "" "" "" "" "" "" "" "" "Medium" "" "Active"
        "u9" exNow "Doctor" "AB"
      = (SubmitOutcome.saved
          (upsert_patient exState (edit_form_record "" "Bob " "" "" "" "" "" "" "" ""
            "Medium" "" "Active" exNow) "u9" exNow "Doctor" "AB").1,
         (upsert_patient exState (edit_form_record "" "Bob " "" "" "" "" "" "" "" ""
            "Medium" "" "Active" exNow) "u9" exNow "Doctor" "AB").2) :=
  (C2_name_validation exState "" "Bob " "" "" "" "" "" "" "" "" "Medium" "" "Active"
    "u9" exNow "Doctor" "AB").2 (by decide)

/-- A stored row whose `Priority` and `Status` columns are absent from the
backend data. -/
def rawNoPrio : RawRecord := [("uid", "u1"), ("Patient Name", "Alice")]

/-- Counterexample to C4 as stated: when the `Priority` and `Status`
columns are entirely absent from the backend data, `_load_csv` fills them
with the empty string like every other column, not with `Medium`/`Active`. -/
theorem C4_counterexample :
    rawNoPrio.lookup "Priority" = none
    ∧ rawNoPrio.lookup "Status" = none
    ∧ (load_csv_record rawNoPrio).priority = ""
    ∧ (load_csv_record rawNoPrio).status = ""
    ∧ (load_csv_record rawNoPrio).priority ≠ "Medium"
    ∧ (load_csv_record rawNoPrio).status ≠ "Active" := by
  decide

/-- C4 amended: on load, every field missing from the backend data is
filled with the empty string — including `priority` and `status`, which
receive no `Medium`/`Active` default (those defaults are applied only by
the entry forms when creating a record). -/
theorem C4_load_defaults (raw : RawRecord) :
    (raw.lookup "Priority" = none → (load_csv_record raw).priority = "")
    ∧ (raw.lookup "Status" = none → (load_csv_record raw).status = "")
    ∧ (raw.lookup "uid" = none → (load_csv_record raw).uid = "")
    ∧ (raw.lookup "Patient Name" = none → (load_csv_record raw).patientName = "")
    ∧ (raw.lookup "Hospital Number" = none → (load_csv_record raw).hospitalNumber = "")
    ∧ (raw.lookup "NHS Number" = none → (load_csv_record raw).nhsNumber = "")
    ∧ (raw.lookup "Date of Birth" = none → (load_csv_record raw).dateOfBirth = "")
    ∧ (raw.lookup "Ward/Bed" = none → (load_csv_record raw).wardBed = "")
    ∧ (raw.lookup "Reason for Admission" = none →
        (load_csv_record raw).reasonForAdmission = "")
    ∧ (raw.lookup "PMH/PSH/DH" = none → (load_csv_record raw).pmhPshDh = "")
    ∧ (raw.lookup "Progress" = none → (load_csv_record raw).progress = "")
    ∧ (raw.lookup "Jobs" = none → (load_csv_record raw).jobs = "")
    ∧ (raw.lookup "Assigned To" = none → (load_csv_record raw).assignedTo = "")
    ∧ (raw.lookup "Last Updated" = none → (load_csv_record raw).lastUpdated = "") := by
  refine ⟨?_, ?_, ?_, ?_, ?_, ?_, ?_, ?_, ?_, ?_, ?_, ?_, ?_, ?_⟩ <;>
    (intro h; simp [load_csv_record, getField, h])

/-- Witness for the amended C4 at a row with no stored columns at all. -/
theorem C4_witness :
    (load_csv_record []).priority = "" ∧ (load_csv_record []).status = "" :=
  ⟨(C4_load_defaults []).1 rfl, (C4_load_defaults []).2.1 rfl⟩

/-- A stripped line matches the open-item marker `- [ ]`. -/
def isOpenLine (line : String) : Bool := startswith (pyStrip line) "- [ ]"

/-- A stripped line matches one of the done-item markers `- [x]` / `- [X]`. -/
def isDoneLine (line : String) : Bool :=
  startswith (pyStrip line) "- [x]" || startswith (pyStrip line) "- [X]"

/-- Two distinct markers of the same length cannot both start a string. -/
theorem startswith_unique (s m1 m2 : String) (hlen : m1.data.length = m2.data.length)
    (hne : m1.data ≠ m2.data) :
    startswith s m1 = true → startswith s m2 = false := by
  unfold startswith
  intro h
  have e1 : s.data.take m1.data.length = m1.data := by simpa using h
  apply beq_eq_false_iff_ne.mpr
  rw [← hlen, e1]
  exact hne

/-- A line matching the open marker matches no done marker. -/
theorem open_not_done (line : String) (h : isOpenLine line = true) :
    isDoneLine line = false := by
  unfold isDoneLine
  rw [startswith_unique (pyStrip line) "- [ ]" "- [x]" (by decide) (by decide) h,
    startswith_unique (pyStrip line) "- [ ]" "- [X]" (by decide) (by decide) h]
  rfl

/-- The pending rows produced from a line list are exactly the open lines,
in order, mapped to their task text. -/
theorem parse_pending (ls : List String) :
    ((parse_lines ls).filter fun td => !td.2).map Prod.fst
      = (ls.filter fun l => isOpenLine l).map fun l => pyStrip (pyDrop (pyStrip l) 5) := by
  induction ls with
  | nil => rfl
  | cons line rest ih =>
      by_cases hd : (startswith (pyStrip line) "- [x]"
          || startswith (pyStrip line) "- [X]") = true
      · have hopen : isOpenLine line = false := by
          cases hop : isOpenLine line
          · rfl
          · have hnd := open_not_done line hop
            unfold isDoneLine at hnd
            rw [hd] at hnd
            exact hnd
        simp [parse_lines, hd, List.filter_cons, hopen, ih]
      · have hd' := Bool.eq_false_iff.mpr hd
        by_cases ho : startswith (pyStrip line) "- [ ]" = true
        · have hopen : isOpenLine line = true := ho
          simp [parse_lines, hd', ho, List.filter_cons, hopen, ih]
        · have ho' := Bool.eq_false_iff.mpr ho
          have hopen : isOpenLine line = false := ho'
          simp [parse_lines, hd', ho', List.filter_cons, hopen, ih]

/-- C9: the pending-jobs view emits, in input order, exactly one row per
line of the jobs text matching the open marker, no row for a line matching
a done marker (no line can match both), and no row for any other line,
which is skipped silently rather than erroring. -/
theorem C9_pending_jobs (jtxt : String) :
    pendingTasks jtxt
      = ((pySplitLines jtxt).filter fun l => isOpenLine l).map
          (fun l => pyStrip (pyDrop (pyStrip l) 5))
    ∧ (pendingTasks jtxt).length = (pySplitLines jtxt).countP (fun l => isOpenLine l)
    ∧ ∀ line : String, isDoneLine line = true → isOpenLine line = false := by
  refine ⟨parse_pending (pySplitLines jtxt), ?_, ?_⟩
  · rw [show pendingTasks jtxt
        = ((parse_lines (pySplitLines jtxt)).filter fun td => !td.2).map Prod.fst from rfl]
    rw [parse_pending (pySplitLines jtxt), List.length_map, ← List.countP_eq_length_filter]
  · intro line h
    cases hop : isOpenLine line
    · rfl
    · rw [open_not_done line hop] at h
      exact absurd h (by simp)

/-- Witness for C9: one jobs text with an open item, a done item and a
malformed line yields exactly the open item's row. -/
theorem C9_witness :
    pendingTasks "- [ ] book CT\n- [x] bloods\nnote"
      = (((pySplitLines "- [ ] book CT\n- [x] bloods\nnote").filter
          fun l => isOpenLine l).map (fun l => pyStrip (pyDrop (pyStrip l) 5)))
    ∧ isOpenLine "- [x] bloods" = false := by
  have h := C9_pending_jobs "- [ ] book CT\n- [x] bloods\nnote"
  exact ⟨h.1, h.2.2 "- [x] bloods" (by decide)⟩

/-- The comparator in propositional form: strictly smaller priority rank
first, on equal ranks the later `Last Updated` first, on full key ties the
smaller input position first. -/
theorem view_le_iff (a b : Nat × PatientRecord) :
    view_le a b = true ↔
      priority_rank a.2.priority < priority_rank b.2.priority
      ∨ (priority_rank a.2.priority = priority_rank b.2.priority
          ∧ (b.2.lastUpdated < a.2.lastUpdated
              ∨ (a.2.lastUpdated = b.2.lastUpdated ∧ a.1 ≤ b.1))) := by
  unfold view_le
  rcases lt_trichotomy (priority_rank a.2.priority) (priority_rank b.2.priority)
    with h | h | h
  · simp [h]
  · rcases lt_trichotomy a.2.lastUpdated b.2.lastUpdated with h2 | h2 | h2
    · simp [h, lt_asymm h2, h2, ne_of_lt h2]
    · simp [h, h2]
    · simp [h, h2, lt_asymm h2]
  · simp [h, lt_asymm h, ne_of_gt h]

/-- The comparator is total. -/
theorem view_le_total (a b : Nat × PatientRecord) :
    (view_le a b || view_le b a) = true := by
  rw [Bool.or_eq_true, view_le_iff, view_le_iff]
  rcases lt_trichotomy (priority_rank a.2.priority) (priority_rank b.2.priority)
    with h | h | h
  · exact Or.inl (Or.inl h)
  · rcases lt_trichotomy a.2.lastUpdated b.2.lastUpdated with h2 | h2 | h2
    · exact Or.inr (Or.inr ⟨h.symm, Or.inl h2⟩)
    · rcases Nat.le_total a.1 b.1 with h3 | h3
      · exact Or.inl (Or.inr ⟨h, Or.inr ⟨h2, h3⟩⟩)
      · exact Or.inr (Or.inr ⟨h.symm, Or.inr ⟨h2.symm, h3⟩⟩)
    · exact Or.inl (Or.inr ⟨h, Or.inl h2⟩)
  · exact Or.inr (Or.inl h)

/-- The comparator is transitive. -/
theorem view_le_trans (a b c : Nat × PatientRecord) :
    view_le a b = true → view_le b c = true → view_le a c = true := by
  rw [view_le_iff, view_le_iff, view_le_iff]
  rintro (h1 | ⟨h1e, h1r⟩) (h2 | ⟨h2e, h2r⟩)
  · exact Or.inl (lt_trans h1 h2)
  · exact Or.inl (by rw [← h2e]; exact h1)
  · exact Or.inl (by rw [h1e]; exact h2)
  · refine Or.inr ⟨h1e.trans h2e, ?_⟩
    rcases h1r with h1l | ⟨h1lu, h1i⟩
    · rcases h2r with h2l | ⟨h2lu, h2i⟩
      · exact Or.inl (lt_trans h2l h1l)
      · exact Or.inl (by rw [← h2lu]; exact h1l)
    · rcases h2r with h2l | ⟨h2lu, h2i⟩
      · exact Or.inl (by rw [h1lu]; exact h2l)
      · exact Or.inr ⟨h1lu.trans h2lu, Nat.le_trans h1i h2i⟩

/-- C5: the board view is a permutation of the filtered rows, ordered
ascending by priority rank (High 0, Medium 1, Low 2, anything else 99),
then descending by `Last Updated`; the position-tagged form shows that
exact key ties keep their input positions in ascending order, i.e. the
sort is stable. -/
theorem C5_board_sort (l : List PatientRecord) :
    List.Perm (sortView l) l
    ∧ List.Perm (sortViewTagged l) l.enum
    ∧ (sortViewTagged l).Pairwise (fun a b =>
        priority_rank a.2.priority < priority_rank b.2.priority
        ∨ (priority_rank a.2.priority = priority_rank b.2.priority
            ∧ (b.2.lastUpdated < a.2.lastUpdated
                ∨ (a.2.lastUpdated = b.2.lastUpdated ∧ a.1 ≤ b.1)))) := by
  have hperm : List.Perm (sortViewTagged l) l.enum :=
    List.mergeSort_perm l.enum view_le
  refine ⟨?_, hperm, ?_⟩
  · have hmap := hperm.map Prod.snd
    simpa [sortView, List.enum_map_snd] using hmap
  · have hsorted := List.sorted_mergeSort view_le_trans view_le_total l.enum
    exact hsorted.imp (fun hab => (view_le_iff _ _).mp hab)

end Handover
